import Mathlib

/-!
Verification of the PAM multi-crop yield-prediction app (`src/app.py`).

The development shallowly embeds the core logic of the app:
* the recommendation engine `recomendar_culturas` (filter by municipality and
  a six-year window, global fallback, group-by-crop mean, descending sort),
* the derived total-production formula `producao_t_estimado`,
* the training orchestrator `treinar_modelo_do_zero` (schema check on the
  pandas column selection, fit, best-effort persistence),
* the load-or-train fallback `load_model` with its process-wide cache,
* the feature pipeline (StandardScaler + OneHotEncoder with
  `handle_unknown="ignore"`) and the random-forest regressor, whose library
  internals are modelled from the spec.

Real numbers from the source are embedded as rationals (`ℚ`); years as `Int`.
-/

namespace PamApp

/-- One row of the PAM dataset (a `HistoricalRecord`): the columns of the CSV
used by `app.py`. -/
structure Row where
  ano : Int
  municipio : String
  cultura : String
  area_plantada_ha : ℚ
  precipitacao_mm : ℚ
  temp_media_c : ℚ
  rendimento_kg_ha : ℚ
deriving DecidableEq, Repr

/-- Arithmetic mean of a list of rationals (pandas `Series.mean`); `0` on the
empty list (never hit on the paths the app exercises). -/
def mean (l : List ℚ) : ℚ := l.sum / (l.length : ℚ)

/-- Lexicographic order on strings by code points, the order Python uses to
compare strings (hence the order of pandas group keys). -/
def strLt (x y : String) : Bool := decide (x.data < y.data)

/-- Insert a string into a sorted duplicate-free list, keeping it sorted and
duplicate-free (used to model the sorted group keys of pandas `groupby`). -/
def insertStr (x : String) : List String → List String
  | [] => [x]
  | y :: ys => if x = y then y :: ys else if strLt x y then x :: y :: ys else y :: insertStr x ys

/-- Sorted, duplicate-free list of the values of a string column: the group
keys produced by pandas `groupby` (which sorts keys ascending). -/
def sortedDedup (l : List String) : List String := l.foldr insertStr []

/-- Insert a `(crop, mean yield)` pair into a list sorted descending by the
second component (models `sort_values(ascending=False)`). -/
def insertDesc (p : String × ℚ) : List (String × ℚ) → List (String × ℚ)
  | [] => [p]
  | q :: qs => if q.2 ≤ p.2 then p :: q :: qs else q :: insertDesc p qs

/-- Sort a list of `(crop, mean yield)` pairs descending by mean yield. -/
def sortDesc (l : List (String × ℚ)) : List (String × ℚ) := l.foldr insertDesc []

/-- Minimum of the `ano` column, `none` on an empty dataset (where pandas
`df["ano"].min()` is NaN). -/
def minAno : List Row → Option Int
  | [] => none
  | r :: rs => some (rs.foldl (fun m x => min m x.ano) r.ano)

/-- The dataset's minimum year (meaningful only on non-empty datasets). -/
def datasetMinYear (df : List Row) : Int := (minAno df).getD 0

/-- Start of the year window in `recomendar_culturas`:
`janela_inicio = ano - 5`, raised to `df["ano"].min()` when below it.  On an
empty dataset the NaN comparison in the source is false, so the start stays
`ano - 5`. -/
def janelaInicioDe (ano : Int) (df : List Row) : Int :=
  let j := ano - 5
  match minAno df with
  | none => j
  | some m => if j < m then m else j

/-- The filter of `recomendar_culturas`: rows of the requested municipality
with `ano` in the inclusive window (pandas `between` is inclusive on both
ends). -/
def filtroDe (municipio : String) (ano : Int) (df : List Row) : List Row :=
  let janela_inicio := janelaInicioDe ano df
  df.filter (fun r => decide (r.municipio = municipio ∧ janela_inicio ≤ r.ano ∧ r.ano ≤ ano))

/-- Yields of the rows of `df` whose crop is `c`
(`filtro.groupby("cultura")["rendimento_kg_ha"]` for one group). -/
def rendimentosDe (df : List Row) (c : String) : List ℚ :=
  (df.filter (fun r => decide (r.cultura = c))).map (·.rendimento_kg_ha)

/-- Group by crop, take the mean yield per crop, sort descending by mean:
`filtro.groupby("cultura")["rendimento_kg_ha"].mean().sort_values(ascending=False)`. -/
def rankingOf (df : List Row) : List (String × ℚ) :=
  sortDesc ((sortedDedup (df.map (·.cultura))).map (fun c => (c, mean (rendimentosDe df c))))

/-- The effective row set `recomendar_culturas` aggregates: the
municipality/window filter, or the whole dataset when that filter is empty. -/
def baseDf (municipio : String) (ano : Int) (df : List Row) : List Row :=
  let filtro := filtroDe municipio ano df
  if filtro.isEmpty then df else filtro

/-- `recomendar_culturas` from `app.py`: ranking of crops by mean yield for
the municipality and year window, falling back to the whole dataset when the
filter is empty. -/
def recomendar_culturas (municipio : String) (ano : Int) (df : List Row) : List (String × ℚ) :=
  rankingOf (baseDf municipio ano df)

/-- `producao_t_estimado` from `app.py`:
`(rendimento_previsto * area_plantada_ha) / 1000.0`. -/
def producao_t_estimado (rendimento_previsto area_plantada_ha : ℚ) : ℚ :=
  (rendimento_previsto * area_plantada_ha) / 1000

-- ===== helper lemmas for the recommendation engine =====

theorem insertStr_ne_nil (x : String) (l : List String) : insertStr x l ≠ [] := by
  cases l with
  | nil => simp [insertStr]
  | cons y ys =>
    simp only [insertStr]
    split
    · simp
    · split <;> simp

theorem sortedDedup_ne_nil (l : List String) (h : l ≠ []) : sortedDedup l ≠ [] := by
  cases l with
  | nil => exact absurd rfl h
  | cons x xs => exact insertStr_ne_nil x _

theorem insertDesc_perm (p : String × ℚ) (l : List (String × ℚ)) :
    List.Perm (insertDesc p l) (p :: l) := by
  induction l with
  | nil => simp [insertDesc]
  | cons q qs ih =>
    simp only [insertDesc]
    split
    · exact List.Perm.refl _
    · exact ((ih.cons q).trans (List.Perm.swap p q qs))

theorem sortDesc_perm (l : List (String × ℚ)) : List.Perm (sortDesc l) l := by
  induction l with
  | nil => simp [sortDesc]
  | cons p ps ih =>
    simpa [sortDesc] using (insertDesc_perm p (sortDesc ps)).trans (ih.cons p)

theorem mem_insertDesc {x p : String × ℚ} {l : List (String × ℚ)}
    (h : x ∈ insertDesc p l) : x = p ∨ x ∈ l :=
  List.mem_cons.mp ((insertDesc_perm p l).subset h)

theorem pairwise_insertDesc (p : String × ℚ) (l : List (String × ℚ))
    (h : l.Pairwise (fun a b => b.2 ≤ a.2)) :
    (insertDesc p l).Pairwise (fun a b => b.2 ≤ a.2) := by
  induction l with
  | nil => simp [insertDesc]
  | cons q qs ih =>
    simp only [insertDesc]
    rcases List.pairwise_cons.mp h with ⟨hq, hqs⟩
    split
    · rename_i hle
      refine List.pairwise_cons.mpr ⟨?_, h⟩
      intro b hb
      rcases List.mem_cons.mp hb with rfl | hb
      · exact hle
      · exact le_trans (hq b hb) hle
    · rename_i hgt
      refine List.pairwise_cons.mpr ⟨?_, ih hqs⟩
      intro b hb
      rcases mem_insertDesc hb with rfl | hb
      · exact le_of_not_le hgt
      · exact hq b hb

theorem pairwise_sortDesc (l : List (String × ℚ)) :
    (sortDesc l).Pairwise (fun a b => b.2 ≤ a.2) := by
  induction l with
  | nil => simp [sortDesc]
  | cons p ps ih => exact pairwise_insertDesc p _ ih

theorem rankingOf_ne_nil (df : List Row) (h : df ≠ []) : rankingOf df ≠ [] := by
  intro hnil
  have hperm := sortDesc_perm ((sortedDedup (df.map (·.cultura))).map
    (fun c => (c, mean (rendimentosDe df c))))
  rw [rankingOf] at hnil
  rw [hnil] at hperm
  have := hperm.length_eq
  simp only [List.length_nil, List.length_map] at this
  have hk : sortedDedup (df.map (·.cultura)) ≠ [] :=
    sortedDedup_ne_nil _ (by simpa using h)
  exact hk (List.eq_nil_of_length_eq_zero this.symm)

theorem mem_rankingOf {p : String × ℚ} {df : List Row} (h : p ∈ rankingOf df) :
    p.2 = mean (rendimentosDe df p.1) := by
  have hmem := (sortDesc_perm _).subset h
  rcases List.mem_map.mp hmem with ⟨c, _, hc⟩
  rw [← hc]

theorem janelaInicioDe_eq_max (ano : Int) (df : List Row) (h : df ≠ []) :
    janelaInicioDe ano df = max (datasetMinYear df) (ano - 5) := by
  cases df with
  | nil => exact absurd rfl h
  | cons r rs =>
    simp only [janelaInicioDe, datasetMinYear, minAno, Option.getD_some]
    split <;> omega

theorem baseDf_of_empty {municipio : String} {ano : Int} {df : List Row}
    (h : filtroDe municipio ano df = []) : baseDf municipio ano df = df := by
  simp only [baseDf, h]
  rfl

theorem baseDf_of_ne_empty {municipio : String} {ano : Int} {df : List Row}
    (h : filtroDe municipio ano df ≠ []) :
    baseDf municipio ano df = filtroDe municipio ano df := by
  simp only [baseDf]
  cases hf : filtroDe municipio ano df with
  | nil => exact absurd hf h
  | cons a l => rfl

/-- A two-row dataset for the end-to-end recommendation scenario of the spec:
municipality "Chapecó", crops "Soja" (yield 3200) and "Milho" (yield 6400),
both for year 2020. -/
def exampleDf : List Row :=
  [⟨2020, "Chapecó", "Soja", 100, 1800, 20, 3200⟩,
   ⟨2020, "Chapecó", "Milho", 100, 1800, 20, 6400⟩]

/-- A one-row dataset used to exercise the global fallback with an unknown
municipality. -/
def smallDf : List Row := [⟨2020, "Chapecó", "Soja", 100, 1800, 20, 3200⟩]

-- ===== claim theorems: recommendation engine and production formula =====

/-- C2: when no dataset row matches the municipality within the year window,
`recomendar_culturas` falls back to ranking over the entire dataset and, on a
non-empty dataset, returns a non-empty ranking, never an empty result. -/
theorem c2_global_fallback_nonempty (municipio : String) (ano : Int) (df : List Row)
    (hdf : df ≠ []) (hempty : filtroDe municipio ano df = []) :
    recomendar_culturas municipio ano df = rankingOf df ∧
      recomendar_culturas municipio ano df ≠ [] := by
  have hbase := baseDf_of_empty hempty
  constructor
  · simp only [recomendar_culturas, hbase]
  · simp only [recomendar_culturas, hbase]
    exact rankingOf_ne_nil df hdf

/-- Witness for C2 at a concrete input: the municipality "Xanadu" matches no
row of `smallDf`, and the result is the global ranking, which is non-empty. -/
theorem c2_global_fallback_nonempty_witness :
    recomendar_culturas "Xanadu" 2024 smallDf = rankingOf smallDf ∧
      recomendar_culturas "Xanadu" 2024 smallDf ≠ [] :=
  c2_global_fallback_nonempty "Xanadu" 2024 smallDf (by decide) (by decide)

/-- C3: when matching rows exist, `recomendar_culturas` aggregates exactly the
rows whose municipality equals the requested one and whose year lies in the
inclusive window `[max(dataset_min_year, ano - 5), ano]`; no other row
contributes (the result is the ranking of exactly that filtered row set). -/
theorem c3_window_filter_exact (municipio : String) (ano : Int) (df : List Row)
    (hne : filtroDe municipio ano df ≠ []) :
    recomendar_culturas municipio ano df =
      rankingOf (df.filter (fun r =>
        decide (r.municipio = municipio ∧
          max (datasetMinYear df) (ano - 5) ≤ r.ano ∧ r.ano ≤ ano))) := by
  have hdf : df ≠ [] := by
    intro hnil
    exact hne (by simp [filtroDe, hnil])
  have hj := janelaInicioDe_eq_max ano df hdf
  have hfiltro : filtroDe municipio ano df =
      df.filter (fun r =>
        decide (r.municipio = municipio ∧
          max (datasetMinYear df) (ano - 5) ≤ r.ano ∧ r.ano ≤ ano)) := by
    simp only [filtroDe, hj]
  rw [recomendar_culturas, baseDf_of_ne_empty hne, hfiltro]

/-- Witness for C3 at a concrete input: for "Chapecó" in 2020 the window is
`[2020, 2020]` and the ranking is computed over the matching rows. -/
theorem c3_window_filter_exact_witness :
    recomendar_culturas "Chapecó" 2020 exampleDf =
      rankingOf (exampleDf.filter (fun r =>
        decide (r.municipio = "Chapecó" ∧
          max (datasetMinYear exampleDf) (2020 - 5) ≤ r.ano ∧ r.ano ≤ 2020))) :=
  c3_window_filter_exact "Chapecó" 2020 exampleDf (by decide)

/-- C4: `recomendar_culturas` returns, per crop of the aggregated row set, the
arithmetic mean of that crop's `rendimento_kg_ha` values, sorted in descending
order of the mean; on the Chapecó example dataset the result is
`[("Milho", 6400), ("Soja", 3200)]`. -/
theorem c4_ranking_mean_sorted_example :
    (∀ (municipio : String) (ano : Int) (df : List Row) (p : String × ℚ),
        p ∈ recomendar_culturas municipio ano df →
        p.2 = mean (rendimentosDe (baseDf municipio ano df) p.1))
    ∧ (∀ (municipio : String) (ano : Int) (df : List Row),
        (recomendar_culturas municipio ano df).Pairwise (fun a b => b.2 ≤ a.2))
    ∧ recomendar_culturas "Chapecó" 2020 exampleDf =
        [("Milho", 6400), ("Soja", 3200)] := by
  refine ⟨?_, ?_, ?_⟩
  · intro municipio ano df p hp
    exact mem_rankingOf hp
  · intro municipio ano df
    exact pairwise_sortDesc _
  · have hb : baseDf "Chapecó" 2020 exampleDf = exampleDf := by decide
    show rankingOf (baseDf "Chapecó" 2020 exampleDf) = _
    rw [hb]
    have hk : sortedDedup (exampleDf.map (·.cultura)) = ["Milho", "Soja"] := by decide
    have hm : rendimentosDe exampleDf "Milho" = [6400] := by decide
    have hs : rendimentosDe exampleDf "Soja" = [3200] := by decide
    rw [rankingOf, hk]
    simp only [List.map_cons, List.map_nil, hm, hs]
    norm_num [mean, sortDesc, insertDesc]

/-- Witness for C4 at a concrete input: the pair `("Milho", 6400)` belongs to
the Chapecó ranking and its value is the mean of the Milho yields. -/
theorem c4_ranking_mean_sorted_example_witness :
    (("Milho", (6400 : ℚ)) : String × ℚ).2 =
      mean (rendimentosDe (baseDf "Chapecó" 2020 exampleDf) "Milho") :=
  c4_ranking_mean_sorted_example.1 "Chapecó" 2020 exampleDf ("Milho", 6400)
    (by rw [c4_ranking_mean_sorted_example.2.2]; decide)

/-- C5: the derived total production in tonnes is the predicted yield times
the planted area divided by 1000; in particular 3000 kg/ha on 50 ha gives
150 t. -/
theorem c5_producao_formula :
    (∀ (r a : ℚ), producao_t_estimado r a = r * a / 1000) ∧
      producao_t_estimado 3000 50 = 150 :=
  ⟨fun _ _ => rfl, by norm_num [producao_t_estimado]⟩

-- ===== feature pipeline and regressor =====

/-- Learned state of the numeric `StandardScaler`: per-column mean and scale. -/
structure FittedScaler where
  means : List ℚ
  scales : List ℚ
deriving DecidableEq, Repr

/-- Population variance of a column (the quantity `StandardScaler` learns
before taking the square root). -/
def variance (xs : List ℚ) : ℚ := mean (xs.map (fun x => (x - mean xs) ^ 2))

/-- Modelled from the spec: `StandardScaler` scales by the standard deviation
with a zero-variance floor (a constant column is scaled by 1, never dividing
by zero).  The square root of the variance is irrational in general, so the
embedding keeps the (rational) variance, with the same zero floor, as the
learned scale; no claim depends on the numeric value of the scale, only on
the transform being total, deterministic and column-ordered. -/
def scaleOf (xs : List ℚ) : ℚ := if variance xs = 0 then 1 else variance xs

/-- Fit of the numeric scaler on the numeric columns. -/
def fitScaler (cols : List (List ℚ)) : FittedScaler :=
  ⟨cols.map mean, cols.map scaleOf⟩

/-- Standardize a numeric row: `z = (x - mean) / scale`, column by column. -/
def transformNum (s : FittedScaler) (xs : List ℚ) : List ℚ :=
  (xs.zip (s.means.zip s.scales)).map (fun p => (p.1 - p.2.1) / p.2.2)

/-- Learned state of the `OneHotEncoder`: one sorted vocabulary per
categorical column. -/
structure FittedOHE where
  vocabs : List (List String)
deriving DecidableEq, Repr

/-- Modelled from the spec: `OneHotEncoder` fit learns, per categorical
column, the sorted vocabulary of the values seen at fit time. -/
def fitOHE (cols : List (List String)) : FittedOHE := ⟨cols.map sortedDedup⟩

/-- Indicator encoding of one categorical value against one vocabulary:
1 at the value's position, 0 elsewhere.  A value absent from the vocabulary
yields all zeros: this is `handle_unknown="ignore"`. -/
def encodeOne (vocab : List String) (v : String) : List ℚ :=
  vocab.map (fun c => if v = c then 1 else 0)

/-- One-hot transform of the categorical values of a row, column by column. -/
def transformCat (e : FittedOHE) (vs : List String) : List ℚ :=
  (List.zipWith encodeOne e.vocabs vs).flatten

/-- A regression tree: leaves keep the target values of the training samples
that reached them (a leaf predicts their mean, as sklearn's squared-error
trees do); inner nodes test one feature against a threshold. -/
inductive DTree where
  | leaf (vals : List ℚ)
  | node (j : Nat) (thr : ℚ) (l r : DTree)
deriving DecidableEq, Repr

/-- Prediction of one tree on a feature vector. -/
def DTree.predict : DTree → List ℚ → ℚ
  | .leaf vals, _ => mean vals
  | .node j thr l r, x => if x.getD j 0 ≤ thr then l.predict x else r.predict x

/-- A random forest: a list of regression trees. -/
structure Forest where
  trees : List DTree
deriving DecidableEq, Repr

/-- Ensemble prediction: the mean of the individual trees' predictions. -/
def Forest.predict (f : Forest) (x : List ℚ) : ℚ :=
  mean (f.trees.map (fun t => t.predict x))

/-- Modelled from the spec: the seeded pseudo-random stream that makes
training reproducible for a fixed `random_state` (a linear congruential
generator stands in for numpy's generator; only determinism in the seed and
the range of the draws matter to the claims). -/
def lcg (s : Nat) : Nat := (1103515245 * s + 12345) % 2147483648

/-- The first `k` draws of the stream started at `s`. -/
def lcgList : Nat → Nat → List Nat
  | _, 0 => []
  | s, k + 1 => lcg s :: lcgList (lcg s) k

/-- `k` bootstrap indices into `n` rows, drawn from the seeded stream. -/
def bootstrapIdx (seed n k : Nat) : List Nat := (lcgList seed k).map (· % n)

/-- Do all samples carry the same target (a pure leaf)? -/
def allSameTarget (samples : List (List ℚ × ℚ)) : Bool :=
  samples.all (fun s => s.2 == (samples.headD ([], 0)).2)

/-- Split threshold at a node: the sample mean of the feature the node tests
(the features rotate with the depth). -/
def splitThr (depth nfeat : Nat) (samples : List (List ℚ × ℚ)) : ℚ :=
  mean (samples.map (fun s => s.1.getD (depth % nfeat) 0))

/-- The samples whose tested feature is at most the threshold. -/
def splitLeft (depth nfeat : Nat) (samples : List (List ℚ × ℚ)) : List (List ℚ × ℚ) :=
  samples.filter (fun s => decide (s.1.getD (depth % nfeat) 0 ≤ splitThr depth nfeat samples))

/-- The samples whose tested feature exceeds the threshold. -/
def splitRight (depth nfeat : Nat) (samples : List (List ℚ × ℚ)) : List (List ℚ × ℚ) :=
  samples.filter (fun s => !decide (s.1.getD (depth % nfeat) 0 ≤ splitThr depth nfeat samples))

/-- Modelled from the spec: growing one CART-style regression tree.  The
split rotates through the features by depth with the sample mean of the
chosen feature as threshold; growth stops on pure targets or a degenerate
split, and leaves keep their samples' targets.  `fuel` bounds the recursion
depth (callers pass the sample size, enough for splits that strictly shrink
the sample). -/
def buildTree : Nat → Nat → Nat → List (List ℚ × ℚ) → DTree
  | 0, _, _, samples => .leaf (samples.map Prod.snd)
  | fuel + 1, depth, nfeat, samples =>
    if allSameTarget samples then .leaf (samples.map Prod.snd)
    else if (splitLeft depth nfeat samples).isEmpty ||
        (splitRight depth nfeat samples).isEmpty then
      .leaf (samples.map Prod.snd)
    else
      .node (depth % nfeat) (splitThr depth nfeat samples)
        (buildTree fuel (depth + 1) nfeat (splitLeft depth nfeat samples))
        (buildTree fuel (depth + 1) nfeat (splitRight depth nfeat samples))

/-- Modelled from the spec: `RandomForestRegressor.fit` with `nTrees`
estimators and a fixed seed.  Each tree is grown on a bootstrap sample of the
rows, drawn from the stream derived from the seed and the tree index; the
forest predicts the mean of the trees. -/
def fitForest (seed nTrees : Nat) (X : List (List ℚ)) (y : List ℚ) : Forest :=
  let data := X.zip y
  let n := data.length
  let nfeat := (X.headD []).length
  ⟨(List.range nTrees).map (fun t =>
      buildTree n 0 nfeat ((bootstrapIdx (seed + t) n n).map (fun i => data.getD i ([], 0))))⟩

/-- The numeric feature vector of a dataset row, in the column order of
`numeric_features` in `app.py`. -/
def Row.numVec (r : Row) : List ℚ :=
  [(r.ano : ℚ), r.area_plantada_ha, r.precipitacao_mm, r.temp_media_c]

/-- A `PredictionRequest`: the input row assembled from the form fields. -/
structure Request where
  ano : Int
  municipio : String
  cultura : String
  area_plantada_ha : ℚ
  precipitacao_mm : ℚ
  temp_media_c : ℚ
deriving DecidableEq, Repr

/-- The numeric feature vector of a request, in the same column order. -/
def Request.numVec (q : Request) : List ℚ :=
  [(q.ano : ℚ), q.area_plantada_ha, q.precipitacao_mm, q.temp_media_c]

/-- The fitted `Pipeline`: preprocessor state (scaler + one-hot vocabularies)
and the fitted forest. -/
structure FittedModel where
  scaler : FittedScaler
  ohe : FittedOHE
  forest : Forest
deriving DecidableEq, Repr

/-- The numeric columns of the dataset, in the order of `numeric_features`. -/
def numColsOf (rows : List Row) : List (List ℚ) :=
  [rows.map (fun r => (r.ano : ℚ)), rows.map (·.area_plantada_ha),
   rows.map (·.precipitacao_mm), rows.map (·.temp_media_c)]

/-- The categorical columns, in the order of `categorical_features`. -/
def catColsOf (rows : List Row) : List (List String) :=
  [rows.map (·.municipio), rows.map (·.cultura)]

/-- `model.fit(X, y)` of `app.py`: the ColumnTransformer fits the scaler on
the numeric columns and the one-hot encoder on the categorical columns, the
rows are transformed (numeric block first, then the one-hot block), and the
150-tree forest with `random_state = 42` is fit on the result. -/
def fitPipeline (rows : List Row) : FittedModel :=
  let scaler := fitScaler (numColsOf rows)
  let ohe := fitOHE (catColsOf rows)
  let X := rows.map (fun r =>
    transformNum scaler r.numVec ++ transformCat ohe [r.municipio, r.cultura])
  let y := rows.map (·.rendimento_kg_ha)
  ⟨scaler, ohe, fitForest 42 150 X y⟩

/-- The feature transform applied to one request at prediction time. -/
def transformReq (m : FittedModel) (q : Request) : List ℚ :=
  transformNum m.scaler q.numVec ++ transformCat m.ohe [q.municipio, q.cultura]

/-- `model.predict(input_data)[0]` of `app.py`. -/
def predictModel (m : FittedModel) (q : Request) : ℚ :=
  m.forest.predict (transformReq m q)

-- ===== training orchestrator and load-or-train fallback =====

/-- The numeric feature column names of `app.py`. -/
def numeric_features : List String :=
  ["ano", "area_plantada_ha", "precipitacao_mm", "temp_media_c"]

/-- The categorical feature column names of `app.py`. -/
def categorical_features : List String := ["municipio", "cultura"]

/-- The target column name of `app.py`. -/
def targetCol : String := "rendimento_kg_ha"

/-- A dataset as `treinar_modelo_do_zero` sees it: the column names present
in the CSV plus the row data of the standard columns. -/
structure DataFrame where
  cols : List String
  rows : List Row
deriving DecidableEq, Repr

/-- Error classes a training run can surface.  `keyError` is the pandas
error raised by selecting absent columns; `schemaError` is the custom error
class the spec's taxonomy prescribes (never produced by the code, which
defines no such class). -/
inductive TrainError where
  | keyError (cols : List String)
  | schemaError (cols : List String)
deriving DecidableEq, Repr

/-- The required feature columns absent from the dataset, in feature order
(the columns pandas lists in the `KeyError` of `df[features]`). -/
def missingFeatures (df : DataFrame) : List String :=
  (numeric_features ++ categorical_features).filter (fun c => !(df.cols.contains c))

/-- `treinar_modelo_do_zero` of `app.py`: select the feature columns (pandas
raises `KeyError` naming the absent ones), select the target column
(`KeyError` naming it), fit the pipeline, then attempt to persist the model
(`joblib.dump` inside `try/except Exception: pass`).  `dumpOk` is whether
the persistence attempt succeeds; the returned flag records whether a file
was written, and the fitted model is returned either way. -/
def treinar_modelo_do_zero (df : DataFrame) (dumpOk : Bool) :
    Except TrainError (FittedModel × Bool) :=
  if (missingFeatures df).isEmpty then
    if df.cols.contains targetCol then
      .ok (fitPipeline df.rows, dumpOk)
    else
      .error (.keyError [targetCol])
  else
    .error (.keyError (missingFeatures df))

/-- `load_model` of `app.py`: try to load the persisted model; on any load
failure (`loaded = none`: file absent, incompatible or corrupt), train from
scratch instead. -/
def load_model (loaded : Option FittedModel) (df : DataFrame) (dumpOk : Bool) :
    Except TrainError FittedModel :=
  match loaded with
  | some m => .ok m
  | none => (treinar_modelo_do_zero df dumpOk).map Prod.fst

/-- Modelled from the spec: the `st.cache_resource` decorator on
`load_model`, a process-wide lazy-init-once cache.  A populated cache is
returned as is; an empty cache runs load-or-train once and stores the
result. -/
def getModel (cache : Option FittedModel) (loaded : Option FittedModel)
    (df : DataFrame) (dumpOk : Bool) :
    Except TrainError (FittedModel × Option FittedModel) :=
  match cache with
  | some m => .ok (m, some m)
  | none => (load_model loaded df dumpOk).map (fun m => (m, some m))

-- ===== helper lemmas for the pipeline and orchestrator =====

theorem encodeOne_not_mem {vocab : List String} {v : String} (h : v ∉ vocab) :
    encodeOne vocab v = List.replicate vocab.length 0 := by
  induction vocab with
  | nil => rfl
  | cons c cs ih =>
    have hv : v ≠ c := fun hvc => h (hvc ▸ List.mem_cons_self c cs)
    have hcs : v ∉ cs := fun hm => h (List.mem_cons_of_mem c hm)
    simp [encodeOne, hv, List.replicate_succ] at ih ⊢
    exact ih hcs

theorem fitPipeline_ohe (rows : List Row) :
    (fitPipeline rows).ohe =
      ⟨[sortedDedup (rows.map (·.municipio)), sortedDedup (rows.map (·.cultura))]⟩ := rfl

theorem transformCat_pair (e : FittedOHE) (a b : List String) (v w : String)
    (h : e.vocabs = [a, b]) :
    transformCat e [v, w] = encodeOne a v ++ encodeOne b w := by
  simp [transformCat, h]

theorem treinar_ok (df : DataFrame) (b : Bool)
    (h1 : (missingFeatures df).isEmpty = true)
    (h2 : df.cols.contains targetCol = true) :
    treinar_modelo_do_zero df b = .ok (fitPipeline df.rows, b) := by
  have h2m : targetCol ∈ df.cols := by simpa using h2
  simp [treinar_modelo_do_zero, h1, h2m]

theorem treinar_ok_inv {df : DataFrame} {b s : Bool} {m : FittedModel}
    (h : treinar_modelo_do_zero df b = .ok (m, s)) :
    (missingFeatures df).isEmpty = true ∧ df.cols.contains targetCol = true ∧
      m = fitPipeline df.rows ∧ s = b := by
  unfold treinar_modelo_do_zero at h
  split at h
  · split at h
    · rename_i hempty htarget
      simp only [Except.ok.injEq, Prod.mk.injEq] at h
      exact ⟨hempty, htarget, h.1.symm, h.2.symm⟩
    · simp at h
  · simp at h

-- ===== claim theorems: pipeline, orchestrator, fallback =====

/-- C1: a prediction request whose municipality or crop is absent from the
vocabulary learned at fit time does not make the transform fail: the unknown
column is encoded as the all-zero indicator vector
(`handle_unknown="ignore"`), the transform of the request is the numeric
block followed by the two indicator blocks, and `predict` still returns a
value (the mean of the trees' predictions on the transformed request). -/
theorem c1_unknown_category_tolerance (rows : List Row) (q : Request) :
    (q.municipio ∉ sortedDedup (rows.map (·.municipio)) →
      encodeOne (sortedDedup (rows.map (·.municipio))) q.municipio =
        List.replicate (sortedDedup (rows.map (·.municipio))).length 0)
    ∧ (q.cultura ∉ sortedDedup (rows.map (·.cultura)) →
      encodeOne (sortedDedup (rows.map (·.cultura))) q.cultura =
        List.replicate (sortedDedup (rows.map (·.cultura))).length 0)
    ∧ transformReq (fitPipeline rows) q =
        transformNum (fitPipeline rows).scaler q.numVec ++
          encodeOne (sortedDedup (rows.map (·.municipio))) q.municipio ++
          encodeOne (sortedDedup (rows.map (·.cultura))) q.cultura
    ∧ predictModel (fitPipeline rows) q =
        mean ((fitPipeline rows).forest.trees.map
          (fun t => t.predict (transformReq (fitPipeline rows) q))) := by
  refine ⟨fun h => encodeOne_not_mem h, fun h => encodeOne_not_mem h, ?_, rfl⟩
  rw [transformReq, transformCat_pair _ _ _ _ _ (by rw [fitPipeline_ohe]), List.append_assoc]

/-- Witness for C1 at a concrete input: "Xanadu" is not a municipality of
`smallDf`'s fitted vocabulary and is encoded as the all-zero vector. -/
theorem c1_unknown_category_tolerance_witness :
    encodeOne (sortedDedup (smallDf.map (·.municipio))) "Xanadu" =
      List.replicate (sortedDedup (smallDf.map (·.municipio))).length 0 :=
  (c1_unknown_category_tolerance smallDf ⟨2024, "Xanadu", "Soja", 100, 1800, 20⟩).1
    (by decide)

/-- A well-formed DataFrame for witnesses: all required columns present, one
data row. -/
def dfOk : DataFrame :=
  ⟨["ano", "area_plantada_ha", "precipitacao_mm", "temp_media_c",
    "municipio", "cultura", "rendimento_kg_ha"], smallDf⟩

/-- A DataFrame whose "ano" column is missing. -/
def dfMissingAno : DataFrame :=
  ⟨["area_plantada_ha", "precipitacao_mm", "temp_media_c",
    "municipio", "cultura", "rendimento_kg_ha"], []⟩

/-- C6: when loading the persisted model fails (`loaded = none`) on a
schema-complete dataset, the process trains a new model from the dataset and
surfaces no error; the prediction function still answers every request
(returning the forest's value on the transformed request); and once the
process-wide cache is populated, every later call returns the cached model
unchanged, regardless of the load result, dataset or persistence outcome
passed to it, so the load-or-train decision runs at most once. -/
theorem c6_load_or_train_cached (df : DataFrame) (b : Bool)
    (h1 : (missingFeatures df).isEmpty = true)
    (h2 : df.cols.contains targetCol = true) :
    getModel none none df b = .ok (fitPipeline df.rows, some (fitPipeline df.rows)) ∧
      (∀ q, predictModel (fitPipeline df.rows) q =
        (fitPipeline df.rows).forest.predict (transformReq (fitPipeline df.rows) q)) ∧
      (∀ (c : FittedModel) (loaded : Option FittedModel) (df2 : DataFrame) (b2 : Bool),
        getModel (some c) loaded df2 b2 = .ok (c, some c)) := by
  refine ⟨?_, fun q => rfl, fun c loaded df2 b2 => rfl⟩
  simp [getModel, load_model, treinar_ok df b h1 h2, Except.map]

/-- Witness for C6 at a concrete input: on `dfOk` with a failed load, the
serving process trains, caches and answers. -/
theorem c6_load_or_train_cached_witness :
    getModel none none dfOk true = .ok (fitPipeline dfOk.rows, some (fitPipeline dfOk.rows)) ∧
      (∀ q, predictModel (fitPipeline dfOk.rows) q =
        (fitPipeline dfOk.rows).forest.predict (transformReq (fitPipeline dfOk.rows) q)) ∧
      (∀ (c : FittedModel) (loaded : Option FittedModel) (df2 : DataFrame) (b2 : Bool),
        getModel (some c) loaded df2 b2 = .ok (c, some c)) :=
  c6_load_or_train_cached dfOk true (by decide) (by decide)

/-- C7 counterexample: on a dataset missing the required column "ano",
training fails with the pandas `KeyError` naming the column; this error is
not of the `SchemaError` class the claim requires (the code defines no such
class and raises the bare pandas error). -/
theorem c7_counterexample_keyerror_not_schemaerror :
    treinar_modelo_do_zero dfMissingAno true = .error (.keyError ["ano"]) ∧
      TrainError.keyError ["ano"] ≠ TrainError.schemaError ["ano"] := by
  exact ⟨rfl, by simp⟩

/-- C7 amended: if the dataset is missing one or more required columns,
training fails with a pandas `KeyError` (not a custom `SchemaError`) naming
missing required column(s): the absent feature columns when any feature
column is missing (pandas raises on `df[features]` first), else the target
column. -/
theorem c7_missing_columns_keyerror (df : DataFrame) (b : Bool)
    (h : missingFeatures df ≠ [] ∨
      (missingFeatures df = [] ∧ df.cols.contains targetCol = false)) :
    ∃ cols, treinar_modelo_do_zero df b = .error (.keyError cols) ∧ cols ≠ [] ∧
      ∀ c ∈ cols, c ∈ numeric_features ++ categorical_features ++ [targetCol] ∧
        df.cols.contains c = false := by
  rcases h with h | ⟨h1, h2⟩
  · refine ⟨missingFeatures df, ?_, h, ?_⟩
    · have hne : (missingFeatures df).isEmpty = false := by
        cases hm : missingFeatures df with
        | nil => exact absurd hm h
        | cons a l => rfl
      simp [treinar_modelo_do_zero, hne]
    · intro c hc
      have hmem := List.mem_filter.mp hc
      refine ⟨List.mem_append_left _ hmem.1, ?_⟩
      simpa using hmem.2
  · refine ⟨[targetCol], ?_, by simp, ?_⟩
    · have hempty : (missingFeatures df).isEmpty = true := by simp [h1]
      have h2m : targetCol ∉ df.cols := by simpa using h2
      simp [treinar_modelo_do_zero, hempty, h2m]
    · intro c hc
      rcases List.mem_singleton.mp hc with rfl
      exact ⟨by simp, h2⟩

/-- Witness for C7 (amended) at a concrete input: `dfMissingAno` misses
"ano" and training fails with a `KeyError` naming it. -/
theorem c7_missing_columns_keyerror_witness :
    ∃ cols, treinar_modelo_do_zero dfMissingAno true = .error (.keyError cols) ∧
      cols ≠ [] ∧
      ∀ c ∈ cols, c ∈ numeric_features ++ categorical_features ++ [targetCol] ∧
        dfMissingAno.cols.contains c = false :=
  c7_missing_columns_keyerror dfMissingAno true (Or.inl (by decide))

/-- C8: a failed persistence attempt is absorbed: when training with a
successful dump returns a model, training the same dataset with a failing
dump returns the very same in-memory model, only the saved flag differs, no
error is propagated, and the model answers every prediction request. -/
theorem c8_persist_failure_nonfatal (df : DataFrame) (m : FittedModel)
    (h : treinar_modelo_do_zero df true = .ok (m, true)) :
    treinar_modelo_do_zero df false = .ok (m, false) ∧
      ∀ q, predictModel m q = m.forest.predict (transformReq m q) := by
  obtain ⟨h1, h2, hm, -⟩ := treinar_ok_inv h
  subst hm
  exact ⟨treinar_ok df false h1 h2, fun q => rfl⟩

/-- Witness for C8 at a concrete input: training `dfOk` with a failing dump
still returns the fitted model. -/
theorem c8_persist_failure_nonfatal_witness :
    treinar_modelo_do_zero dfOk false = .ok (fitPipeline dfOk.rows, false) ∧
      ∀ q, predictModel (fitPipeline dfOk.rows) q =
        (fitPipeline dfOk.rows).forest.predict (transformReq (fitPipeline dfOk.rows) q) :=
  c8_persist_failure_nonfatal dfOk (fitPipeline dfOk.rows) (by rfl)

/-- C9: training the regressor twice on an identical dataset with the same
seed and tree count produces identical fitted forests, and hence identical
predictions on every held-out input.  In the embedding the library's
pseudo-randomness is a function of the seed alone, so two fits from equal
ingredients coincide. -/
theorem c9_fit_deterministic (seed nTrees : Nat) (X : List (List ℚ)) (y : List ℚ)
    (f1 f2 : Forest)
    (h1 : f1 = fitForest seed nTrees X y) (h2 : f2 = fitForest seed nTrees X y) :
    f1 = f2 ∧ ∀ x, f1.predict x = f2.predict x := by
  subst h1; subst h2; exact ⟨rfl, fun _ => rfl⟩

/-- Witness for C9 at a concrete input: two fits of a two-row dataset with
seed 42 agree on a held-out feature vector. -/
theorem c9_fit_deterministic_witness :
    (fitForest 42 2 [[1], [2]] [5, 6]).predict [1] =
      (fitForest 42 2 [[1], [2]] [5, 6]).predict [1] :=
  (c9_fit_deterministic 42 2 [[1], [2]] [5, 6] _ _ rfl rfl).2 [1]

-- ===== bounds on means, trees and the forest =====

theorem listsum_le (xs : List ℚ) (hi : ℚ) (h : ∀ v ∈ xs, v ≤ hi) :
    xs.sum ≤ (xs.length : ℚ) * hi := by
  induction xs with
  | nil => simp
  | cons a l ih =>
    have ha := h a (List.mem_cons_self a l)
    have hl := ih (fun v hv => h v (List.mem_cons_of_mem a hv))
    simp only [List.sum_cons, List.length_cons]
    push_cast
    have hexp : ((l.length : ℚ) + 1) * hi = (l.length : ℚ) * hi + hi := by ring
    linarith

theorem le_listsum (xs : List ℚ) (lo : ℚ) (h : ∀ v ∈ xs, lo ≤ v) :
    (xs.length : ℚ) * lo ≤ xs.sum := by
  induction xs with
  | nil => simp
  | cons a l ih =>
    have ha := h a (List.mem_cons_self a l)
    have hl := ih (fun v hv => h v (List.mem_cons_of_mem a hv))
    simp only [List.sum_cons, List.length_cons]
    push_cast
    have hexp : ((l.length : ℚ) + 1) * lo = (l.length : ℚ) * lo + lo := by ring
    linarith

theorem mean_le (xs : List ℚ) (hi : ℚ) (hne : xs ≠ []) (h : ∀ v ∈ xs, v ≤ hi) :
    mean xs ≤ hi := by
  have hlen : (0 : ℚ) < (xs.length : ℚ) := by exact_mod_cast List.length_pos.mpr hne
  rw [mean, div_le_iff₀ hlen]
  calc xs.sum ≤ (xs.length : ℚ) * hi := listsum_le xs hi h
    _ = hi * (xs.length : ℚ) := mul_comm _ _

theorem le_mean (xs : List ℚ) (lo : ℚ) (hne : xs ≠ []) (h : ∀ v ∈ xs, lo ≤ v) :
    lo ≤ mean xs := by
  have hlen : (0 : ℚ) < (xs.length : ℚ) := by exact_mod_cast List.length_pos.mpr hne
  rw [mean, le_div_iff₀ hlen]
  calc lo * (xs.length : ℚ) = (xs.length : ℚ) * lo := mul_comm _ _
    _ ≤ xs.sum := le_listsum xs lo h

/-- Minimum of a list of rationals, 0 on the empty list. -/
def listMin : List ℚ → ℚ
  | [] => 0
  | x :: xs => xs.foldl min x

/-- Maximum of a list of rationals, 0 on the empty list. -/
def listMax : List ℚ → ℚ
  | [] => 0
  | x :: xs => xs.foldl max x

theorem foldl_min_le (xs : List ℚ) :
    ∀ a : ℚ, xs.foldl min a ≤ a ∧ ∀ v ∈ xs, xs.foldl min a ≤ v := by
  induction xs with
  | nil =>
    intro a
    exact ⟨le_refl a, by simp⟩
  | cons b l ih =>
    intro a
    simp only [List.foldl_cons]
    refine ⟨le_trans (ih (min a b)).1 (min_le_left a b), ?_⟩
    intro v hv
    rcases List.mem_cons.mp hv with rfl | hv
    · exact le_trans (ih (min a v)).1 (min_le_right a v)
    · exact (ih (min a b)).2 v hv

theorem le_foldl_max (xs : List ℚ) :
    ∀ a : ℚ, a ≤ xs.foldl max a ∧ ∀ v ∈ xs, v ≤ xs.foldl max a := by
  induction xs with
  | nil =>
    intro a
    exact ⟨le_refl a, by simp⟩
  | cons b l ih =>
    intro a
    simp only [List.foldl_cons]
    refine ⟨le_trans (le_max_left a b) (ih (max a b)).1, ?_⟩
    intro v hv
    rcases List.mem_cons.mp hv with rfl | hv
    · exact le_trans (le_max_right a v) (ih (max a v)).1
    · exact (ih (max a b)).2 v hv

theorem listMin_le_mem {xs : List ℚ} {v : ℚ} (h : v ∈ xs) : listMin xs ≤ v := by
  cases xs with
  | nil => cases h
  | cons x l =>
    rcases List.mem_cons.mp h with rfl | hv
    · exact (foldl_min_le l v).1
    · exact (foldl_min_le l x).2 v hv

theorem mem_le_listMax {xs : List ℚ} {v : ℚ} (h : v ∈ xs) : v ≤ listMax xs := by
  cases xs with
  | nil => cases h
  | cons x l =>
    rcases List.mem_cons.mp h with rfl | hv
    · exact (le_foldl_max l v).1
    · exact (le_foldl_max l x).2 v hv

theorem foldl_min_mem (xs : List ℚ) :
    ∀ a : ℚ, xs.foldl min a = a ∨ xs.foldl min a ∈ xs := by
  induction xs with
  | nil =>
    intro a
    exact Or.inl rfl
  | cons b l ih =>
    intro a
    simp only [List.foldl_cons]
    rcases ih (min a b) with h | h
    · rcases le_total a b with hab | hab
      · exact Or.inl (by rw [h, min_eq_left hab])
      · exact Or.inr (by rw [h, min_eq_right hab]; exact List.mem_cons_self b l)
    · exact Or.inr (List.mem_cons_of_mem b h)

theorem listMin_mem {xs : List ℚ} (h : xs ≠ []) : listMin xs ∈ xs := by
  cases xs with
  | nil => exact absurd rfl h
  | cons x l =>
    show l.foldl min x ∈ x :: l
    rcases foldl_min_mem l x with h1 | h1
    · rw [h1]; exact List.mem_cons_self x l
    · exact List.mem_cons_of_mem x h1

/-- All leaf value lists of a tree are non-empty and lie in `[lo, hi]`. -/
def DTree.Bounded (lo hi : ℚ) : DTree → Prop
  | .leaf vals => vals ≠ [] ∧ ∀ v ∈ vals, lo ≤ v ∧ v ≤ hi
  | .node _ _ l r => DTree.Bounded lo hi l ∧ DTree.Bounded lo hi r

theorem DTree.predict_bounded {lo hi : ℚ} :
    ∀ (t : DTree), DTree.Bounded lo hi t → ∀ x, lo ≤ t.predict x ∧ t.predict x ≤ hi
  | .leaf vals, h, x => by
    obtain ⟨hne, hb⟩ := h
    exact ⟨le_mean vals lo hne (fun v hv => (hb v hv).1),
           mean_le vals hi hne (fun v hv => (hb v hv).2)⟩
  | .node j thr l r, h, x => by
    obtain ⟨hl, hr⟩ := h
    simp only [DTree.predict]
    split
    · exact DTree.predict_bounded l hl x
    · exact DTree.predict_bounded r hr x

theorem buildTree_bounded (lo hi : ℚ) (fuel : Nat) :
    ∀ (depth nfeat : Nat) (samples : List (List ℚ × ℚ)),
      samples ≠ [] → (∀ s ∈ samples, lo ≤ s.2 ∧ s.2 ≤ hi) →
      DTree.Bounded lo hi (buildTree fuel depth nfeat samples) := by
  induction fuel with
  | zero =>
    intro depth nfeat samples hne hb
    refine ⟨by simpa using hne, ?_⟩
    intro v hv
    rcases List.mem_map.mp hv with ⟨s, hs, rfl⟩
    exact hb s hs
  | succ fuel ih =>
    intro depth nfeat samples hne hb
    simp only [buildTree]
    split
    · refine ⟨by simpa using hne, ?_⟩
      intro v hv
      rcases List.mem_map.mp hv with ⟨s, hs, rfl⟩
      exact hb s hs
    · split
      · refine ⟨by simpa using hne, ?_⟩
        intro v hv
        rcases List.mem_map.mp hv with ⟨s, hs, rfl⟩
        exact hb s hs
      · rename_i hsplit
        have hl : splitLeft depth nfeat samples ≠ [] := by
          intro h0
          rw [h0] at hsplit
          simp at hsplit
        have hr : splitRight depth nfeat samples ≠ [] := by
          intro h0
          rw [h0] at hsplit
          simp at hsplit
        exact ⟨ih _ _ _ hl (fun s hs => hb s (List.mem_filter.mp hs).1),
               ih _ _ _ hr (fun s hs => hb s (List.mem_filter.mp hs).1)⟩

theorem getD_mem_of_lt {α : Type} (l : List α) (i : Nat) (d : α) (h : i < l.length) :
    l.getD i d ∈ l := by
  rw [List.getD_eq_getElem?_getD, List.getElem?_eq_getElem h]
  simp

theorem snd_mem_of_mem_zip {α β : Type} {p : α × β} {l1 : List α} {l2 : List β}
    (h : p ∈ l1.zip l2) : p.2 ∈ l2 := by
  obtain ⟨a, b⟩ := p
  exact (List.of_mem_zip h).2

theorem lcgList_length (s k : Nat) : (lcgList s k).length = k := by
  induction k generalizing s with
  | zero => rfl
  | succ k ih => simp [lcgList, ih]

theorem fitForest_trees_length (seed nTrees : Nat) (X : List (List ℚ)) (y : List ℚ) :
    (fitForest seed nTrees X y).trees.length = nTrees := by
  simp [fitForest]

theorem fitForest_predict_bounded (seed nTrees : Nat) (X : List (List ℚ)) (y : List ℚ)
    (lo hi : ℚ) (hlen : X.length = y.length) (hy : y ≠ [])
    (hb : ∀ v ∈ y, lo ≤ v ∧ v ≤ hi) (hn : nTrees ≠ 0) (x : List ℚ) :
    lo ≤ (fitForest seed nTrees X y).predict x ∧
      (fitForest seed nTrees X y).predict x ≤ hi := by
  have hdlen : (X.zip y).length = y.length := by
    rw [List.length_zip X y, hlen, Nat.min_self]
  have hdpos : 0 < (X.zip y).length := by
    rw [hdlen]
    exact List.length_pos.mpr hy
  have htree : ∀ t ∈ (fitForest seed nTrees X y).trees, DTree.Bounded lo hi t := by
    intro t ht
    simp only [fitForest] at ht
    rcases List.mem_map.mp ht with ⟨k, hk, rfl⟩
    apply buildTree_bounded
    · have hslen : ((bootstrapIdx (seed + k) (X.zip y).length (X.zip y).length).map
          (fun i => (X.zip y).getD i ([], 0))).length = (X.zip y).length := by
        simp [bootstrapIdx, lcgList_length]
      intro h0
      rw [h0] at hslen
      simp only [List.length_nil] at hslen
      omega
    · intro s hs
      rcases List.mem_map.mp hs with ⟨i, hi2, rfl⟩
      simp only [bootstrapIdx, List.mem_map] at hi2
      rcases hi2 with ⟨w, hw, rfl⟩
      have hmem : (X.zip y).getD (w % (X.zip y).length) ([], 0) ∈ X.zip y :=
        getD_mem_of_lt _ _ _ (Nat.mod_lt w hdpos)
      exact hb _ (snd_mem_of_mem_zip hmem)
  have hmaplen : ((fitForest seed nTrees X y).trees.map (fun t => t.predict x)).length =
      nTrees := by
    rw [List.length_map, fitForest_trees_length]
  have hmapne : (fitForest seed nTrees X y).trees.map (fun t => t.predict x) ≠ [] := by
    intro h0
    rw [h0] at hmaplen
    simp only [List.length_nil] at hmaplen
    exact hn hmaplen.symm
  have hvals : ∀ v ∈ (fitForest seed nTrees X y).trees.map (fun t => t.predict x),
      lo ≤ v ∧ v ≤ hi := by
    intro v hv
    rcases List.mem_map.mp hv with ⟨t, ht, rfl⟩
    exact DTree.predict_bounded t (htree t ht) x
  exact ⟨le_mean _ lo hmapne (fun v hv => (hvals v hv).1),
         mean_le _ hi hmapne (fun v hv => (hvals v hv).2)⟩

/-- C10: the fitted pipeline's prediction for every request, out-of-vocabulary
requests included, lies in the closed interval of the training yields: each
leaf holds training targets, a tree predicts a mean of its leaf's targets, and
the forest the mean of its trees; if all training yields are non-negative so
is every prediction. -/
theorem c10_prediction_within_training_range (rows : List Row) (q : Request)
    (h : rows ≠ []) :
    listMin (rows.map (·.rendimento_kg_ha)) ≤ predictModel (fitPipeline rows) q ∧
      predictModel (fitPipeline rows) q ≤ listMax (rows.map (·.rendimento_kg_ha)) ∧
      ((∀ r ∈ rows, 0 ≤ r.rendimento_kg_ha) → 0 ≤ predictModel (fitPipeline rows) q) := by
  have hy : rows.map (·.rendimento_kg_ha) ≠ [] := by simpa using h
  have hX : (rows.map (fun r => transformNum (fitScaler (numColsOf rows)) r.numVec ++
      transformCat (fitOHE (catColsOf rows)) [r.municipio, r.cultura])).length =
      (rows.map (·.rendimento_kg_ha)).length := by simp
  have hb : ∀ v ∈ rows.map (·.rendimento_kg_ha),
      listMin (rows.map (·.rendimento_kg_ha)) ≤ v ∧
        v ≤ listMax (rows.map (·.rendimento_kg_ha)) :=
    fun v hv => ⟨listMin_le_mem hv, mem_le_listMax hv⟩
  have hmain := fitForest_predict_bounded 42 150
    (rows.map (fun r => transformNum (fitScaler (numColsOf rows)) r.numVec ++
      transformCat (fitOHE (catColsOf rows)) [r.municipio, r.cultura]))
    (rows.map (·.rendimento_kg_ha))
    (listMin (rows.map (·.rendimento_kg_ha))) (listMax (rows.map (·.rendimento_kg_ha)))
    hX hy hb (by decide) (transformReq (fitPipeline rows) q)
  have hpred : predictModel (fitPipeline rows) q =
      (fitForest 42 150
        (rows.map (fun r => transformNum (fitScaler (numColsOf rows)) r.numVec ++
          transformCat (fitOHE (catColsOf rows)) [r.municipio, r.cultura]))
        (rows.map (·.rendimento_kg_ha))).predict (transformReq (fitPipeline rows) q) := rfl
  refine ⟨?_, ?_, ?_⟩
  · rw [hpred]
    exact hmain.1
  · rw [hpred]
    exact hmain.2
  · intro hpos
    have h0 : 0 ≤ listMin (rows.map (·.rendimento_kg_ha)) := by
      rcases List.mem_map.mp (listMin_mem hy) with ⟨r, hr, heq⟩
      rw [← heq]
      exact hpos r hr
    refine le_trans h0 ?_
    rw [hpred]
    exact hmain.1

/-- Witness for C10 at a concrete input: on the one-row dataset the
prediction for an out-of-vocabulary request stays within the training yield
range and is non-negative. -/
theorem c10_prediction_within_training_range_witness :
    listMin (smallDf.map (·.rendimento_kg_ha)) ≤
        predictModel (fitPipeline smallDf) ⟨2024, "Xanadu", "Trigo", 100, 1800, 20⟩ ∧
      predictModel (fitPipeline smallDf) ⟨2024, "Xanadu", "Trigo", 100, 1800, 20⟩ ≤
        listMax (smallDf.map (·.rendimento_kg_ha)) ∧
      ((∀ r ∈ smallDf, 0 ≤ r.rendimento_kg_ha) →
        0 ≤ predictModel (fitPipeline smallDf) ⟨2024, "Xanadu", "Trigo", 100, 1800, 20⟩) :=
  c10_prediction_within_training_range smallDf ⟨2024, "Xanadu", "Trigo", 100, 1800, 20⟩
    (by decide)

end PamApp
